import Mathlib

set_option linter.unusedVariables false

/-!
Shallow embedding of the request-scoped change-capture and realtime-propagation
pipeline of the SQLAlchemy-js-api repository.

The definitions below are translated from the Python sources:

* `src/jsalchemy_api/utils.py`            (dict_diff, model_group)
* `src/jsalchemy_api/interceptors.py`     (ChangeInterceptor: _load_model, _m2m_append, _m2m_remove)
* `src/jsalchemy_api/resources/base.py`   (ResultData)
* `src/jsalchemy_api/resources/manager.py`(ResourceManager.changes, _deep_serialize, action)
* `src/jsalchemy_api/resources/propagation.py` (Messanger.propagate)
* `quasar_api/context/manager.py`         (ContextManager.Context, ContextProxy)
* `quasar_api/context/redis.py`           (RedisSession)

Python dictionaries are embedded as insertion-ordered association lists
(`List (String × _)`), sets as lists (iteration order is irrelevant to the
properties proved here), and fallible code as `Except`/`Option`.
-/

namespace SpecJS

/-- Wire-safe serialized field values produced by the per-field type converters. -/
inductive Val where
  | nat : Nat → Val
  | str : String → Val
  | null : Val
deriving DecidableEq, Repr

/-- Serialized projection of an entity: a Python dict column-name → value,
embedded as an insertion-ordered association list. -/
abbrev Record := List (String × Val)

/-- Embedding of `utils.dict_diff`: the entries of `b` whose key is absent from
`a` or maps in `a` to a different value. -/
def dict_diff (a b : Record) : Record :=
  b.filter fun kv =>
    match a.lookup kv.1 with
    | none => true
    | some v => v != kv.2

/-- Persistent entity as seen by the pipeline: its SQLAlchemy type name, its
primary key `id`, and the current values of its non-pk columns. -/
structure Entity where
  typeName : String
  id : Nat
  attrs : List (String × Val)
deriving DecidableEq, Repr

/-- Embedding of `DBResource.serialize` (`src/jsalchemy_api/resources/db.py`):
a dict of every table column; the primary-key column `id` is always present. -/
def Entity.serialize (e : Entity) : Record :=
  ("id", Val.nat e.id) :: e.attrs

/-- Embedding of `request.loaded`, the per-scope snapshot store: a
`defaultdict(list)` keyed by model type name, each value the list of
serialized snapshots in load order. -/
abbrev Loaded := List (String × List Record)

/-- Append a record to the list stored under a key of a `defaultdict(list)`. -/
def appendLoad (loaded : Loaded) (tn : String) (r : Record) : Loaded :=
  match loaded with
  | [] => [(tn, [r])]
  | (k, rs) :: rest =>
    if k = tn then (k, rs ++ [r]) :: rest else (k, rs) :: appendLoad rest tn r

/-- Embedding of `ChangeInterceptor._load_model`: on every load event the
serialized snapshot of the target is appended to `request.loaded` under the
type name of the target. -/
def load_model (loaded : Loaded) (e : Entity) : Loaded :=
  appendLoad loaded e.typeName e.serialize

/-- List of snapshots recorded for a type name (empty when none). -/
def loadedOf (loaded : Loaded) (tn : String) : List Record :=
  (loaded.lookup tn).getD []

/-- Embedding of the snapshot-baseline lookup in `ResourceManager.changes`:
the Python dict comprehension over the load list keyed by the id
field keeps, for each id, the record of the LAST load, and `previous.get`
then retrieves it. -/
def lastById (items : List Record) (i : Nat) : Option Record :=
  (items.filter fun r => decide (r.lookup "id" = some (Val.nat i))).getLast?

/-- Python dict assignment `d[k] = v`: replace the value in place when the key
exists, otherwise append the pair at the end. -/
def dict_set (r : Record) (k : String) (v : Val) : Record :=
  if r.any fun kv => kv.1 == k then
    r.map fun kv => if kv.1 == k then (k, v) else kv
  else r ++ [(k, v)]

/-- Per-record core of the update loop of `ResourceManager.changes`: given the
snapshot store, an updated entity yields a Diff Record when a snapshot
baseline exists and the diff against it is non-empty; the id is then written
into the diff. `none` means the record contributes no Diff Record (either
no snapshot — the caller re-buckets it into new — or an empty diff). -/
def processRecord (loaded : Loaded) (e : Entity) : Option Record :=
  match lastById (loadedOf loaded e.typeName) e.id with
  | none => none
  | some prev =>
    let d := dict_diff prev e.serialize
    if d = [] then none else some (dict_set d "id" (Val.nat e.id))

/-- Insert a name into a sorted list of names (an auxiliary of `sortNames`). -/
def insertName (n : String) : List String → List String
  | [] => [n]
  | m :: rest => if n ≤ m then n :: m :: rest else m :: insertName n rest

/-- Stable insertion sort on type names, mirroring the Python
`sorted(key=type name)` used before `groupby`. -/
def sortNames : List String → List String
  | [] => []
  | n :: rest => insertName n (sortNames rest)

/-- Collapse consecutive duplicates, mirroring `itertools.groupby` keys on a
sorted list. -/
def dedupAdj : List String → List String
  | [] => []
  | [n] => [n]
  | n :: m :: rest =>
    if n = m then dedupAdj (m :: rest) else n :: dedupAdj (m :: rest)

/-- Sorted list of distinct type names of a bucket: the group keys produced by
`groupby(sorted(items, key=type name), type)`. -/
def typeNamesSorted (es : List Entity) : List String :=
  dedupAdj (sortNames (es.map Entity.typeName))

/-- Resource registry view needed by the pipeline: which model type names are
registered, and the resource name registered for a model type name. -/
structure Registry where
  registered : List String
  resName : String → String

/-- Embedding of the `update` section built by `ResourceManager.changes`:
entities grouped by type name (Python sorts then groups; the sort is stable,
so each group keeps the original relative order, which the per-name filter
reproduces), each group mapped through the per-record diff loop. -/
def changesUpdate (reg : Registry) (loaded : Loaded) (update : List Entity) :
    List (String × List Record) :=
  (typeNamesSorted update).map fun tn =>
    (reg.resName tn, (update.filter fun e => e.typeName == tn).filterMap (processRecord loaded))

/-- The entities of the update bucket that have no snapshot baseline: the ones
the update loop moves into the new bucket (`result.new.add(record)`). -/
def rebucketed (loaded : Loaded) (update : List Entity) : List Entity :=
  update.filter fun e => (lastById (loadedOf loaded e.typeName) e.id).isNone

/-- Embedding of `utils.model_group` with a resource manager: entities grouped
by model and serialized per resource. -/
def model_group (reg : Registry) (items : List Entity) : List (String × List Record) :=
  (typeNamesSorted items).map fun tn =>
    (reg.resName tn, (items.filter fun e => e.typeName == tn).map Entity.serialize)

/-- Relation-delta operation tag: the first element of the tuples appended by
`_m2m_append` (the string add) and `_m2m_remove` (the string del). -/
inductive M2MOp where
  | add
  | del
deriving DecidableEq, Repr

/-- One relation-delta entry `(op, value type name, relation key, [value.id, target.id])`. -/
structure M2MEntry where
  op : M2MOp
  valueType : String
  relKey : String
  valueId : Nat
  targetId : Nat
deriving DecidableEq, Repr

/-- Embedding of `ChangeInterceptor._m2m_append`: append an add entry to the
relation-delta log of the current scope. -/
def m2m_append (log : List M2MEntry) (target value : Entity) (key : String) : List M2MEntry :=
  log ++ [⟨M2MOp.add, value.typeName, key, value.id, target.id⟩]

/-- Embedding of `ChangeInterceptor._m2m_remove`: append a del entry to the
relation-delta log of the current scope. -/
def m2m_remove (log : List M2MEntry) (target value : Entity) (key : String) : List M2MEntry :=
  log ++ [⟨M2MOp.del, value.typeName, key, value.id, target.id⟩]

/-- Embedding of `ResultData` (`src/jsalchemy_api/resources/base.py`): the four
change buckets accumulated during a scope. -/
structure ResultData where
  new : List Entity
  update : List Entity
  delete : List (String × List Nat)
  m2m : List M2MEntry
deriving Repr

/-- The reduced change dictionary built by `ResourceManager.changes`; each
section is present (`some`) exactly when the code inserts the corresponding
key into the Python dict. -/
structure ChangeDict where
  update : Option (List (String × List Record))
  new : Option (List (String × List Record))
  delete : Option (List (String × List Nat))
  m2m : Option (List M2MEntry)
deriving DecidableEq, Repr

/-- Embedding of the `ResourceManager.changes` property: reduce the intercepted
`ResultData` into the change dictionary. The update loop re-buckets entities
without a snapshot into `new` before the `new` section is rendered (in the
Python code this happens by mutating `result.new` during the loop, and the
`new` section is built afterwards). -/
def changes (reg : Registry) (loaded : Loaded) (r : ResultData) : ChangeDict :=
  let finalNew := r.new ++ rebucketed loaded r.update
  { update := if r.update.isEmpty then none else some (changesUpdate reg loaded r.update)
    new := if finalNew.isEmpty then none else some (model_group reg finalNew)
    delete := if r.delete.isEmpty then none else some (r.delete.map fun p => (reg.resName p.1, p.2))
    m2m := if r.m2m.isEmpty then none else some r.m2m }

/-- Truthiness of the reduced change dictionary (`if message:` in Python): the
dict is empty exactly when no section key was inserted. -/
def ChangeDict.isEmpty (cd : ChangeDict) : Bool :=
  cd.update.isNone && cd.new.isNone && cd.delete.isNone && cd.m2m.isNone

/-- A call to `Messanger.rt_send`: the payload pushed onto the realtime queue
and its addressing (the Messanger always addresses all). -/
structure PublishCall where
  payload : ChangeDict
  target : String
deriving DecidableEq, Repr

/-- Embedding of `Messanger.propagate` called with the reduced change
dictionary: a publish call is produced only when the dict is truthy. -/
def propagate (cd : ChangeDict) : Option PublishCall :=
  if cd.isEmpty then none else some ⟨cd, "all"⟩

/-- Value tree handed back by a business verb as its direct result: the input
of `ResourceManager._deep_serialize` (dicts, collections, entities,
primitives). -/
inductive Item where
  | prim : Val → Item
  | entity : Entity → Item
  | list : List Item → Item
  | dict : List (String × Item) → Item

/-- Output tree of `ResourceManager._deep_serialize`: primitives, full
serialized entity payloads, forward-reference markers carrying a type name
and an id, and the two container shapes. -/
inductive SerItem where
  | prim : Val → SerItem
  | record : Record → SerItem
  | ref : String → Nat → SerItem
  | list : List SerItem → SerItem
  | dict : List (String × SerItem) → SerItem

mutual

/-- Embedding of `ResourceManager._deep_serialize`. Dicts and collections are
serialized recursively; an entity raises when its type has no registered
resource, is replaced by a `$ref` marker when it belongs to the new or
update buckets of the scope, and is fully serialized otherwise. -/
def deep_serialize (reg : Registry) (buckets : List Entity) : Item → Except String SerItem
  | Item.prim v => Except.ok (SerItem.prim v)
  | Item.entity e =>
    if reg.registered.contains e.typeName then
      if buckets.contains e then Except.ok (SerItem.ref e.typeName e.id)
      else Except.ok (SerItem.record e.serialize)
    else Except.error "type not serializable"
  | Item.list xs => (deepList reg buckets xs).map SerItem.list
  | Item.dict kvs => (deepDict reg buckets kvs).map SerItem.dict

/-- Elementwise serialization of a collection (the list comprehension of
`_deep_serialize`). -/
def deepList (reg : Registry) (buckets : List Entity) : List Item → Except String (List SerItem)
  | [] => Except.ok []
  | x :: xs => do
    let y ← deep_serialize reg buckets x
    let ys ← deepList reg buckets xs
    pure (y :: ys)

/-- Entrywise serialization of a dict (the dict comprehension of
`_deep_serialize`). -/
def deepDict (reg : Registry) (buckets : List Entity) :
    List (String × Item) → Except String (List (String × SerItem))
  | [] => Except.ok []
  | (k, x) :: xs => do
    let y ← deep_serialize reg buckets x
    let ys ← deepDict reg buckets xs
    pure ((k, y) :: ys)

end

/-- Observable side effects of one `ResourceManager.action` invocation, in
order: the explicit flush, the publish call of the Messanger, and the exit
path of `ContextManager.Context.__aexit__` (session persisted, then commit
on a clean exit or rollback when an exception reached the context
manager). -/
inductive Event where
  | flush
  | publish : PublishCall → Event
  | sessionSave
  | commit
  | rollback
deriving DecidableEq, Repr

/-- Outcome of running the business verb inside the scope: either it returns a
direct result with the `ResultData` and snapshots the interceptor
accumulated, or it raises `HandledValidation` with a list of errors, or it
raises some other exception. -/
inductive VerbOutcome where
  | ok : Option Item → ResultData → Loaded → VerbOutcome
  | validationError : List String → VerbOutcome
  | failure : VerbOutcome

/-- What `ResourceManager.action` hands back to the caller: the combined
change-set and payload on success, the structured validation payload
(errors plus the resource and verb names, under the `$validation` key)
when the verb raised `HandledValidation`, or a propagated exception. -/
inductive Response where
  | success : ChangeDict → Option SerItem → Response
  | validation : List String → String → String → Response
  | error : Response

/-- One run of `ResourceManager.action`: the response produced and the ordered
trace of observable events. -/
structure ActionRun where
  response : Response
  events : List Event

/-- Embedding of the scope body of `ResourceManager.action` together with
`ContextManager.Context.__aexit__`. On a normal verb return: flush, reduce
the change-set, await the propagation if any, serialize the direct result
(the buckets seen by `_deep_serialize` include the entities the reduction
re-bucketed into new), return, then the context manager persists the
session and commits. When the verb raises `HandledValidation`, the handler
inside the scope swallows it and returns the validation payload, so the
context manager sees a clean exit: session persisted, then commit. Any
other exception escapes the scope: session persisted, then rollback. -/
def action (reg : Registry) (resource verb : String) (vo : VerbOutcome) : ActionRun :=
  match vo with
  | VerbOutcome.ok result rec loaded =>
    let cd := changes reg loaded rec
    let pubEvents := match propagate cd with
      | none => []
      | some p => [Event.publish p]
    let buckets := rec.new ++ rebucketed loaded rec.update ++ rec.update
    match result with
    | none =>
      ⟨Response.success cd none, Event.flush :: pubEvents ++ [Event.sessionSave, Event.commit]⟩
    | some it =>
      match deep_serialize reg buckets it with
      | Except.ok s =>
        ⟨Response.success cd (some s), Event.flush :: pubEvents ++ [Event.sessionSave, Event.commit]⟩
      | Except.error _ =>
        ⟨Response.error, Event.flush :: pubEvents ++ [Event.sessionSave, Event.rollback]⟩
  | VerbOutcome.validationError errs =>
    ⟨Response.validation errs resource verb, [Event.sessionSave, Event.commit]⟩
  | VerbOutcome.failure =>
    ⟨Response.error, [Event.sessionSave, Event.rollback]⟩

/-- Auxiliary scan for `publishOnlyAfterCommit`: tracks whether a commit has
already been seen. -/
def pubAfterCommitAux (committed : Bool) : List Event → Bool
  | [] => true
  | Event.commit :: rest => pubAfterCommitAux true rest
  | Event.publish _ :: rest => committed && pubAfterCommitAux committed rest
  | _ :: rest => pubAfterCommitAux committed rest

/-- Formalization of the temporal requirement of the spec: every publish event
of the trace happens only after a commit has succeeded. -/
def publishOnlyAfterCommit (evs : List Event) : Bool :=
  pubAfterCommitAux false evs

/-- Embedding of `RedisSession` (`quasar_api/context/redis.py`): the session
content dict; values may themselves be the Python None (`Option Val` with
`none` for None). -/
structure RedisSession where
  content : List (String × Option Val)

/-- Python `in` on the content dict. -/
def dictContains (d : List (String × Option Val)) (k : String) : Bool :=
  d.any fun kv => kv.1 == k

/-- Python dict subscript on the content dict: raises KeyError on a missing
key. -/
def dict_getitem (d : List (String × Option Val)) (k : String) : Except String (Option Val) :=
  match d.lookup k with
  | some v => Except.ok v
  | none => Except.error "KeyError"

/-- Embedding of `RedisSession.__getitem__`: return the stored value when the
key is present, and the Python None otherwise. -/
def RedisSession.getItem (s : RedisSession) (item : String) : Except String (Option Val) :=
  if dictContains s.content item then dict_getitem s.content item
  else Except.ok none

/-! Task-local context model.

`ContextProxy` (`quasar_api/context/manager.py`) stores one `ContextVar` per
proxy name; `update` sets the variable to a freshly built object in the
context of the calling task, and attribute access reads or mutates the
object currently bound in that context. The `contextvars` semantics of the
Python runtime are part of the embedding: each logical task runs in its own
context, and spawning a task snapshots (copies) the parent mapping from
variables to values, where the values are object references. Objects
themselves live on a shared heap, which is why the copy is shallow. -/

/-- Attribute map of one heap object (for example, a `Request` scratch
object). -/
abbrev Obj := List (String × Val)

/-- Update-or-append on an association list, the assignment of Python dicts
and of `ContextVar.set` within one context. -/
def setA {α β : Type} [DecidableEq α] (l : List (α × β)) (k : α) (v : β) : List (α × β) :=
  match l with
  | [] => [(k, v)]
  | (k1, v1) :: rest => if k1 = k then (k, v) :: rest else (k1, v1) :: setA rest k v

/-- Bindings of one task context: proxy (`ContextVar`) name → heap reference
of the bound object. -/
abbrev Bindings := List (String × Nat)

/-- The cooperatively scheduled world: the shared object heap, the per-task
contexts, and the next fresh heap reference. -/
structure World where
  heap : List (Nat × Obj)
  tasks : List (Nat × Bindings)
  nextRef : Nat

/-- Bindings of a task (a task that never bound anything has the empty
context). -/
def World.bindingsOf (w : World) (t : Nat) : Bindings :=
  (w.tasks.lookup t).getD []

/-- Spawning a task (`asyncio.create_task`): the child receives a copy of the
current context of the parent, never the live mapping. -/
def spawnTask (w : World) (parent child : Nat) : World :=
  { w with tasks := setA w.tasks child (w.bindingsOf parent) }

/-- Embedding of `ContextProxy.update` as called on scope entry
(`Context.__aenter__` binds a freshly constructed object, for example
`request.update(Request())`): allocate a fresh empty object on the heap and
set the proxy variable to it in the context of the calling task only. -/
def ctxUpdate (w : World) (t : Nat) (var : String) : World :=
  { heap := setA w.heap w.nextRef []
    tasks := setA w.tasks t (setA (w.bindingsOf t) var w.nextRef)
    nextRef := w.nextRef + 1 }

/-- Embedding of `ContextProxy.__setattr__`: mutate, on the shared heap, the
object bound to the proxy variable in the context of the calling task. -/
def ctxSetAttr (w : World) (t : Nat) (var attr : String) (v : Val) : World :=
  match (w.bindingsOf t).lookup var with
  | none => w
  | some r =>
    match w.heap.lookup r with
    | none => w
    | some o => { w with heap := setA w.heap r (setA o attr v) }

/-- Embedding of `ContextProxy.__getattr__`: read an attribute of the object
bound to the proxy variable in the context of the calling task. -/
def ctxGetAttr (w : World) (t : Nat) (var attr : String) : Option Val :=
  ((w.bindingsOf t).lookup var).bind fun r =>
    (w.heap.lookup r).bind fun o => o.lookup attr

/-- Well-formedness of a world: every heap reference in use (allocated or
bound) is below the fresh-reference counter. -/
def WFW (w : World) : Prop :=
  (∀ p ∈ w.heap, p.1 < w.nextRef) ∧
  (∀ q ∈ w.tasks, ∀ b ∈ q.2, b.2 < w.nextRef)

mutual

/-- Entity references occurring in a result tree, in left-to-right order. -/
def entityLeaves : Item → List Entity
  | Item.prim _ => []
  | Item.entity e => [e]
  | Item.list xs => entityLeavesList xs
  | Item.dict kvs => entityLeavesDict kvs

/-- Entity references of a list of result trees. -/
def entityLeavesList : List Item → List Entity
  | [] => []
  | x :: xs => entityLeaves x ++ entityLeavesList xs

/-- Entity references of a dict of result trees. -/
def entityLeavesDict : List (String × Item) → List Entity
  | [] => []
  | (_, x) :: xs => entityLeaves x ++ entityLeavesDict xs

end

mutual

/-- Full serialized entity payloads occurring in a serialized tree. -/
def recordNodes : SerItem → List Record
  | SerItem.prim _ => []
  | SerItem.record r => [r]
  | SerItem.ref _ _ => []
  | SerItem.list xs => recordNodesList xs
  | SerItem.dict kvs => recordNodesDict kvs

/-- Full serialized entity payloads of a list of serialized trees. -/
def recordNodesList : List SerItem → List Record
  | [] => []
  | x :: xs => recordNodes x ++ recordNodesList xs

/-- Full serialized entity payloads of a dict of serialized trees. -/
def recordNodesDict : List (String × SerItem) → List Record
  | [] => []
  | (_, x) :: xs => recordNodes x ++ recordNodesDict xs

end

/-- Concrete entity used by witnesses: a File with id 1 whose name column
holds the string a. -/
def exFileA : Entity := ⟨"File", 1, [("name", Val.str "a")]⟩

/-- The same stored entity observed with the string b in its name column. -/
def exFileB : Entity := ⟨"File", 1, [("name", Val.str "b")]⟩

/-- The same stored entity observed with the string c in its name column. -/
def exFileC : Entity := ⟨"File", 1, [("name", Val.str "c")]⟩

/-- Concrete registry used by witnesses: the File and Folder models are
registered and each resource keeps the model name. -/
def exReg : Registry := ⟨["File", "Folder"], fun s => s⟩

end SpecJS




namespace SpecJS

theorem lookup_mem {α β : Type} [BEq α] [LawfulBEq α] {l : List (α × β)} {k : α} {b : β}
    (h : l.lookup k = some b) : (k, b) ∈ l := by
  induction l with
  | nil => simp [List.lookup] at h
  | cons p rest ih =>
    obtain ⟨k1, v1⟩ := p
    rw [List.lookup_cons] at h
    by_cases hk : k = k1
    · subst hk
      simp at h
      simp [h]
    · have : (k == k1) = false := beq_false_of_ne hk
      rw [this] at h
      exact List.mem_cons_of_mem _ (ih h)

theorem loadedOf_nil (tn : String) : loadedOf [] tn = [] := rfl

theorem loadedOf_cons (k : String) (rs : List Record) (rest : Loaded) (tn : String) :
    loadedOf ((k, rs) :: rest) tn = if tn = k then rs else loadedOf rest tn := by
  by_cases h : tn = k
  · simp [loadedOf, List.lookup_cons, h]
  · simp [loadedOf, List.lookup_cons, beq_false_of_ne h, h]

theorem loadedOf_appendLoad (loaded : Loaded) (tn : String) (r : Record) :
    loadedOf (appendLoad loaded tn r) tn = loadedOf loaded tn ++ [r] := by
  induction loaded with
  | nil => simp [appendLoad, loadedOf_cons, loadedOf_nil]
  | cons p rest ih =>
    obtain ⟨k, rs⟩ := p
    by_cases h : k = tn
    · subst h
      simp [appendLoad, loadedOf_cons]
    · have h2 : tn ≠ k := fun hh => h hh.symm
      simp [appendLoad, h, loadedOf_cons, h2, ih]

theorem serialize_lookup_id (e : Entity) : e.serialize.lookup "id" = some (Val.nat e.id) := by
  simp [Entity.serialize, List.lookup_cons]

theorem lastById_concat (items : List Record) (r : Record) (i : Nat)
    (h : r.lookup "id" = some (Val.nat i)) :
    lastById (items ++ [r]) i = some r := by
  unfold lastById
  rw [List.filter_append]
  have : List.filter (fun rr => decide (rr.lookup "id" = some (Val.nat i))) [r] = [r] := by
    simp [List.filter, h]
  rw [this, List.getLast?_concat]

/-- C4 counterexample. -/
theorem C4_cex :
    lastById (loadedOf (load_model (load_model [] exFileA) exFileB) "File") 1
        = some exFileB.serialize ∧
    exFileB.serialize ≠ exFileA.serialize ∧
    processRecord (load_model (load_model [] exFileA) exFileB) exFileA
        = some [("name", Val.str "a"), ("id", Val.nat 1)] := by
  refine ⟨?_, ?_, ?_⟩ <;> decide

/-- C4 amended. -/
theorem C4_amd (loaded : Loaded) (e : Entity) :
    lastById (loadedOf (load_model loaded e) e.typeName) e.id = some e.serialize := by
  rw [load_model, loadedOf_appendLoad]
  exact lastById_concat _ _ _ (serialize_lookup_id e)

end SpecJS

namespace SpecJS

theorem mem_dict_diff (a b : Record) (k : String) (v : Val) :
    (k, v) ∈ dict_diff a b ↔ (k, v) ∈ b ∧ a.lookup k ≠ some v := by
  unfold dict_diff
  rw [List.mem_filter]
  refine and_congr_right fun _ => ?_
  cases h : a.lookup k <;> simp [h, bne_iff_ne]

theorem mem_dict_set_ne (d : Record) (k0 k : String) (v0 v : Val) (hk : k ≠ k0) :
    (k, v) ∈ dict_set d k0 v0 ↔ (k, v) ∈ d := by
  unfold dict_set
  by_cases h : d.any fun kv => kv.1 == k0
  · rw [if_pos h, List.mem_map]
    constructor
    · rintro ⟨⟨k1, v1⟩, hmem, heq⟩
      by_cases h1 : k1 = k0
      · simp [h1] at heq
        exact absurd heq.1.symm hk
      · simp [beq_false_of_ne h1] at heq
        rwa [heq.1, heq.2] at hmem
    · intro hmem
      refine ⟨(k, v), hmem, ?_⟩
      simp [beq_false_of_ne hk]
  · rw [if_neg h, List.mem_append]
    simp [hk]

theorem lookup_append_right (d : Record) (k : String) (v : Val)
    (hnone : d.lookup k = none) : (d ++ [(k, v)]).lookup k = some v := by
  induction d with
  | nil => simp [List.lookup_cons]
  | cons p rest ih =>
    obtain ⟨k1, v1⟩ := p
    rw [List.lookup_cons] at hnone
    rw [List.cons_append, List.lookup_cons]
    cases hbe : k == k1
    · rw [hbe] at hnone
      exact ih hnone
    · rw [hbe] at hnone
      simp at hnone

theorem any_eq_false_lookup_none (d : Record) (k : String)
    (h : (d.any fun kv => kv.1 == k) = false) : d.lookup k = none := by
  induction d with
  | nil => rfl
  | cons p rest ih =>
    obtain ⟨k1, v1⟩ := p
    simp [List.any_cons] at h
    rw [List.lookup_cons]
    have : (k == k1) = false := by
      cases hbe : k == k1
      · rfl
      · exact absurd ((beq_iff_eq).1 hbe).symm (by simpa using h.1)
    rw [this]
    exact ih (by simpa using h.2)

theorem lookup_map_set (d : Record) (k : String) (v : Val)
    (h : (d.any fun kv => kv.1 == k) = true) :
    (d.map fun kv => if kv.1 == k then (k, v) else kv).lookup k = some v := by
  induction d with
  | nil => simp at h
  | cons p rest ih =>
    obtain ⟨k1, v1⟩ := p
    rw [List.map_cons]
    cases hbe : (k1 == k)
    · rw [if_neg (by simp [hbe])]
      rw [List.lookup_cons]
      have : (k == k1) = false := by
        cases hkk : k == k1
        · rfl
        · rw [(beq_iff_eq).1 hkk] at hbe
          simp at hbe
      rw [this]
      refine ih ?_
      simp [List.any_cons, hbe] at h
      simpa using h
    · rw [if_pos (by simp [hbe])]
      simp [List.lookup_cons]

theorem lookup_dict_set (d : Record) (k : String) (v : Val) :
    (dict_set d k v).lookup k = some v := by
  unfold dict_set
  by_cases hany : (d.any fun kv => kv.1 == k) = true
  · rw [if_pos hany]
    exact lookup_map_set d k v hany
  · rw [if_neg hany]
    have hf : (d.any fun kv => kv.1 == k) = false := Bool.eq_false_iff.mpr hany
    exact lookup_append_right d k v (any_eq_false_lookup_none d k hf)

theorem mem_insertName (n m : String) (l : List String) :
    m ∈ insertName n l ↔ m = n ∨ m ∈ l := by
  induction l with
  | nil => simp [insertName]
  | cons x rest ih =>
    unfold insertName
    by_cases h : n ≤ x
    · simp [h]
    · rw [if_neg h]
      simp only [List.mem_cons, ih]
      tauto

theorem mem_sortNames (m : String) (l : List String) : m ∈ sortNames l ↔ m ∈ l := by
  induction l with
  | nil => simp [sortNames]
  | cons x rest ih => simp [sortNames, mem_insertName, ih]

theorem mem_dedupAdj (m : String) (l : List String) : m ∈ dedupAdj l ↔ m ∈ l := by
  induction l with
  | nil => simp [dedupAdj]
  | cons x rest ih =>
    cases rest with
    | nil => simp [dedupAdj]
    | cons y rest2 =>
      unfold dedupAdj
      by_cases h : x = y
      · rw [if_pos h, ih]
        subst h
        simp only [List.mem_cons]
        tauto
      · rw [if_neg h]
        simp only [List.mem_cons, ih]

theorem mem_typeNamesSorted (es : List Entity) (e : Entity) (h : e ∈ es) :
    e.typeName ∈ typeNamesSorted es := by
  rw [typeNamesSorted, mem_dedupAdj, mem_sortNames, List.mem_map]
  exact ⟨e, h, rfl⟩

end SpecJS

namespace SpecJS

theorem processRecord_char (loaded : Loaded) (e : Entity) (prev : Record)
    (h : lastById (loadedOf loaded e.typeName) e.id = some prev) :
    processRecord loaded e
      = if dict_diff prev e.serialize = [] then none
        else some (dict_set (dict_diff prev e.serialize) "id" (Val.nat e.id)) := by
  simp [processRecord, h]

/-- C5: for an entity with a snapshot baseline, the update loop emits a Diff
Record exactly when the diff is non-empty; the record holds the id plus
exactly the fields whose committed serialized value differs from the
snapshot; and the per-resource group holding these records is a section of
the reduced update dictionary. -/
theorem C5_diff_record (reg : Registry) (loaded : Loaded) (update : List Entity)
    (e : Entity) (prev rec : Record)
    (hprev : lastById (loadedOf loaded e.typeName) e.id = some prev)
    (hmem : e ∈ update) :
    (processRecord loaded e = none ↔ dict_diff prev e.serialize = []) ∧
    (processRecord loaded e = some rec →
      (∀ k v, k ≠ "id" → ((k, v) ∈ rec ↔ (k, v) ∈ e.serialize ∧ prev.lookup k ≠ some v)) ∧
      rec.lookup "id" = some (Val.nat e.id) ∧
      rec ∈ (update.filter fun x => x.typeName == e.typeName).filterMap (processRecord loaded)) ∧
    (reg.resName e.typeName,
      (update.filter fun x => x.typeName == e.typeName).filterMap (processRecord loaded))
      ∈ changesUpdate reg loaded update := by
  have hchar := processRecord_char loaded e prev hprev
  refine ⟨?_, ?_, ?_⟩
  · rw [hchar]
    by_cases hd : dict_diff prev e.serialize = [] <;> simp [hd]
  · intro hsome
    rw [hchar] at hsome
    by_cases hd : dict_diff prev e.serialize = []
    · simp [hd] at hsome
    · rw [if_neg hd] at hsome
      have hrec : rec = dict_set (dict_diff prev e.serialize) "id" (Val.nat e.id) :=
        (Option.some.injEq _ _ ▸ hsome).symm
      refine ⟨?_, ?_, ?_⟩
      · intro k v hk
        rw [hrec, mem_dict_set_ne _ _ _ _ _ hk]
        exact mem_dict_diff prev e.serialize k v
      · rw [hrec]
        exact lookup_dict_set _ _ _
      · refine List.mem_filterMap.mpr ⟨e, List.mem_filter.mpr ⟨hmem, ?_⟩, ?_⟩
        · simp
        · rw [hchar, if_neg hd, hrec]
  · exact List.mem_map.mpr ⟨e.typeName, mem_typeNamesSorted update e hmem, rfl⟩

/-- C5 witness: a File loaded with name a and committed with name c yields the
Diff Record of its name field, and the File group belongs to the update
section. -/
theorem C5_diff_record_w :
    (processRecord (load_model [] exFileA) exFileC = some [("name", Val.str "c"), ("id", Val.nat 1)] →
      ([("name", Val.str "c"), ("id", Val.nat 1)] : Record).lookup "id" = some (Val.nat 1)) ∧
    (exReg.resName exFileC.typeName,
      ([exFileC].filter fun x => x.typeName == exFileC.typeName).filterMap
        (processRecord (load_model [] exFileA)))
      ∈ changesUpdate exReg (load_model [] exFileA) [exFileC] := by
  have h := C5_diff_record exReg (load_model [] exFileA) [exFileC] exFileC
    exFileA.serialize [("name", Val.str "c"), ("id", Val.nat 1)] (by decide) (by decide)
  exact ⟨fun hs => (h.2.1 hs).2.1, h.2.2⟩

/-- C6: an updated entity with no snapshot baseline produces no Diff Record
and is re-bucketed into the new bucket: its serialization appears in the
new section of the reduced change-set. -/
theorem C6_rebucket (reg : Registry) (loaded : Loaded) (r : ResultData) (e : Entity)
    (hmem : e ∈ r.update)
    (hnone : lastById (loadedOf loaded e.typeName) e.id = none) :
    processRecord loaded e = none ∧
    e ∈ r.new ++ rebucketed loaded r.update ∧
    ∃ groups, (changes reg loaded r).new = some groups ∧
      (reg.resName e.typeName,
        ((r.new ++ rebucketed loaded r.update).filter fun x => x.typeName == e.typeName).map
          Entity.serialize) ∈ groups ∧
      e.serialize ∈ ((r.new ++ rebucketed loaded r.update).filter fun x => x.typeName == e.typeName).map
        Entity.serialize := by
  have hreb : e ∈ rebucketed loaded r.update := by
    refine List.mem_filter.mpr ⟨hmem, ?_⟩
    simp [hnone]
  have hfin : e ∈ r.new ++ rebucketed loaded r.update :=
    List.mem_append.mpr (Or.inr hreb)
  refine ⟨by simp [processRecord, hnone], hfin, ?_⟩
  refine ⟨model_group reg (r.new ++ rebucketed loaded r.update), ?_, ?_, ?_⟩
  · have hne : (r.new ++ rebucketed loaded r.update) ≠ [] := List.ne_nil_of_mem hfin
    simp only [changes]
    rw [if_neg (by simpa using hne)]
  · exact List.mem_map.mpr ⟨e.typeName, mem_typeNamesSorted _ e hfin, rfl⟩
  · refine List.mem_map.mpr ⟨e, List.mem_filter.mpr ⟨hfin, by simp⟩, rfl⟩

/-- C6 witness: a File updated without ever being loaded lands in the new
section of the reduced change-set. -/
theorem C6_rebucket_w :
    processRecord [] exFileC = none ∧
    exFileC ∈ ([] : List Entity) ++ rebucketed [] [exFileC] := by
  have h := C6_rebucket exReg [] ⟨[], [exFileC], [], []⟩ exFileC (by decide) (by decide)
  exact ⟨h.1, h.2.1⟩

end SpecJS

namespace SpecJS

/-- C7: an append followed by a remove of the same pair appends exactly two
relation-delta entries, the add entry first and the del entry second, and
the reduced change-set carries the log verbatim (no deduplication). -/
theorem C7_m2m_log (log : List M2MEntry) (target value : Entity) (key : String)
    (reg : Registry) (loaded : Loaded) (r : ResultData) :
    m2m_remove (m2m_append log target value key) target value key
      = log ++ [⟨M2MOp.add, value.typeName, key, value.id, target.id⟩,
                ⟨M2MOp.del, value.typeName, key, value.id, target.id⟩] ∧
    (m2m_remove (m2m_append log target value key) target value key).length = log.length + 2 ∧
    (changes reg loaded
        { r with m2m := m2m_remove (m2m_append log target value key) target value key }).m2m
      = some (m2m_remove (m2m_append log target value key) target value key) := by
  refine ⟨by simp [m2m_append, m2m_remove], by simp [m2m_append, m2m_remove], ?_⟩
  simp [changes, m2m_append, m2m_remove]

/-- C9: an empty reduced change-set produces no publish call, and an action
whose reduction is empty emits no publish event. -/
theorem C9_empty_no_publish (cd : ChangeDict) (reg : Registry) (resource verb : String)
    (r : ResultData) (loaded : Loaded)
    (h : cd.isEmpty = true)
    (h2 : (changes reg loaded r).isEmpty = true) :
    propagate cd = none ∧
    ∀ p, Event.publish p ∉ (action reg resource verb (VerbOutcome.ok none r loaded)).events := by
  refine ⟨by simp [propagate, h], ?_⟩
  intro p
  simp [action, propagate, h2]

/-- C9 witness: the empty scope publishes nothing. -/
theorem C9_empty_no_publish_w :
    propagate (changes exReg [] ⟨[], [], [], []⟩) = none :=
  (C9_empty_no_publish (changes exReg [] ⟨[], [], [], []⟩) exReg "file" "get"
    ⟨[], [], [], []⟩ [] (by decide) (by decide)).1

/-- Helper: when some key of an association list matches, the lookup finds a
value. -/
theorem any_key_lookup_isSome {β : Type} (d : List (String × β)) (k : String)
    (h : (d.any fun kv => kv.1 == k) = true) : (d.lookup k).isSome := by
  induction d with
  | nil => simp at h
  | cons p rest ih =>
    obtain ⟨k1, v1⟩ := p
    rw [List.lookup_cons]
    cases hbe : k == k1
    · simp only [List.any_cons] at h
      rcases (Bool.or_eq_true _ _).mp h with h1 | h2
      · rw [beq_iff_eq] at h1
        subst h1
        simp at hbe
      · exact ih h2
    · simp

/-- C10: indexed session access is total; a missing key and a key explicitly
set to None both read back as None. -/
theorem C10_session_getitem (s : RedisSession) (k : String) :
    (∃ v, s.getItem k = Except.ok v) ∧
    (s.content.lookup k = none → s.getItem k = Except.ok none) ∧
    (s.content.lookup k = some none → s.getItem k = Except.ok none) := by
  unfold RedisSession.getItem
  by_cases hc : dictContains s.content k = true
  · rw [if_pos hc]
    have hsome : (s.content.lookup k).isSome := by
      unfold dictContains at hc
      exact any_key_lookup_isSome s.content k hc
    obtain ⟨v, hv⟩ := Option.isSome_iff_exists.mp hsome
    refine ⟨⟨v, by simp [dict_getitem, hv]⟩, ?_, ?_⟩
    · intro hnone
      rw [hnone] at hv
      exact absurd hv (by simp)
    · intro hn
      rw [hv] at hn
      have : v = none := by injection hn
      simp [dict_getitem, hv, this]
  · rw [if_neg hc]
    exact ⟨⟨none, rfl⟩, fun _ => rfl, fun _ => rfl⟩

/-- C10 witness: a key stored as None reads back as None without raising. -/
theorem C10_session_getitem_w :
    RedisSession.getItem ⟨[("x", none)]⟩ "x" = Except.ok none :=
  (C10_session_getitem ⟨[("x", none)]⟩ "x").2.2 (by decide)

/-- C1 counterexample: a verb that raises HandledValidation leads to a clean
scope exit, so the transaction is committed, not rolled back. -/
theorem C1_cex :
    Event.rollback ∉ (action exReg "folder" "put" (VerbOutcome.validationError ["name required"])).events ∧
    Event.commit ∈ (action exReg "folder" "put" (VerbOutcome.validationError ["name required"])).events ∧
    (action exReg "folder" "put" (VerbOutcome.validationError ["name required"])).response
      = Response.validation ["name required"] "folder" "put" :=
  ⟨by decide, by decide, rfl⟩

/-- C1 amended: on HandledValidation the caller receives the structured
validation payload instead of a change-set, nothing is propagated, the
session is persisted and the transaction is committed (the exception is
swallowed inside the scope, so the context manager sees a clean exit). -/
theorem C1_amended (reg : Registry) (resource verb : String) (errs : List String) :
    (action reg resource verb (VerbOutcome.validationError errs)).response
      = Response.validation errs resource verb ∧
    (action reg resource verb (VerbOutcome.validationError errs)).events
      = [Event.sessionSave, Event.commit] :=
  ⟨rfl, rfl⟩

/-- C2 counterexample: in a successful action with a non-empty change-set the
publish call precedes the commit, so publication happens while the
transaction is still open. -/
theorem C2_cex :
    publishOnlyAfterCommit
      (action exReg "file" "post" (VerbOutcome.ok none ⟨[exFileA], [], [], []⟩ [])).events = false ∧
    Event.commit ∈ (action exReg "file" "post" (VerbOutcome.ok none ⟨[exFileA], [], [], []⟩ [])).events :=
  ⟨by decide, by decide⟩

/-- C2 amended: on a successful action with a non-empty reduced change-set the
trace is flush, then publish, then session save, then commit: propagation
happens inside the still-open transaction, immediately after reduction and
before the commit. -/
theorem C2_amended (reg : Registry) (resource verb : String) (r : ResultData) (loaded : Loaded)
    (h : (changes reg loaded r).isEmpty = false) :
    (action reg resource verb (VerbOutcome.ok none r loaded)).events
      = [Event.flush, Event.publish ⟨changes reg loaded r, "all"⟩, Event.sessionSave, Event.commit] ∧
    publishOnlyAfterCommit (action reg resource verb (VerbOutcome.ok none r loaded)).events = false := by
  have hp : propagate (changes reg loaded r) = some ⟨changes reg loaded r, "all"⟩ := by
    simp [propagate, h]
  refine ⟨by simp [action, hp], ?_⟩
  simp [action, hp, publishOnlyAfterCommit, pubAfterCommitAux]

/-- C2 witness: the amended trace at a concrete non-empty change-set. -/
theorem C2_amended_w :
    (action exReg "file" "post" (VerbOutcome.ok none ⟨[exFileA], [], [], []⟩ [])).events
      = [Event.flush, Event.publish ⟨changes exReg [] ⟨[exFileA], [], [], []⟩, "all"⟩,
         Event.sessionSave, Event.commit] :=
  (C2_amended exReg "file" "post" ⟨[exFileA], [], [], []⟩ [] (by decide)).1

end SpecJS

namespace SpecJS

theorem lookup_setA_self {α β : Type} [BEq α] [LawfulBEq α] [DecidableEq α]
    (l : List (α × β)) (k : α) (v : β) : (setA l k v).lookup k = some v := by
  induction l with
  | nil => simp [setA, List.lookup_cons]
  | cons p rest ih =>
    obtain ⟨k1, v1⟩ := p
    by_cases h : k1 = k
    · simp [setA, h, List.lookup_cons]
    · rw [setA, if_neg h, List.lookup_cons]
      rw [beq_false_of_ne fun hh => h hh.symm]
      exact ih

theorem lookup_setA_ne {α β : Type} [BEq α] [LawfulBEq α] [DecidableEq α]
    (l : List (α × β)) (k k2 : α) (v : β) (hk : k2 ≠ k) :
    (setA l k v).lookup k2 = l.lookup k2 := by
  induction l with
  | nil => simp [setA, List.lookup_cons, beq_false_of_ne hk]
  | cons p rest ih =>
    obtain ⟨k1, v1⟩ := p
    by_cases h : k1 = k
    · subst h
      rw [setA, if_pos rfl, List.lookup_cons, List.lookup_cons]
      rw [beq_false_of_ne hk]
    · rw [setA, if_neg h, List.lookup_cons, List.lookup_cons]
      cases hbe : k2 == k1
      · exact ih
      · rfl

theorem bindingsOf_ctxUpdate_self (w : World) (t : Nat) (var : String) :
    (ctxUpdate w t var).bindingsOf t = setA (w.bindingsOf t) var w.nextRef := by
  unfold ctxUpdate World.bindingsOf
  rw [lookup_setA_self]
  rfl

theorem bindingsOf_ctxUpdate_ne (w : World) (t t2 : Nat) (var : String) (h : t2 ≠ t) :
    (ctxUpdate w t var).bindingsOf t2 = w.bindingsOf t2 := by
  unfold ctxUpdate World.bindingsOf
  rw [lookup_setA_ne _ _ _ _ h]

theorem tasks_ctxSetAttr (w : World) (t : Nat) (var attr : String) (v : Val) :
    (ctxSetAttr w t var attr v).tasks = w.tasks := by
  unfold ctxSetAttr
  split
  · rfl
  · split
    · rfl
    · rfl

theorem bindingsOf_ctxSetAttr (w : World) (t t2 : Nat) (var attr : String) (v : Val) :
    (ctxSetAttr w t var attr v).bindingsOf t2 = w.bindingsOf t2 := by
  unfold World.bindingsOf
  rw [tasks_ctxSetAttr]

theorem heap_ctxSetAttr (w : World) (t : Nat) (var attr : String) (v : Val)
    (r : Nat) (o : Obj)
    (h1 : (w.bindingsOf t).lookup var = some r)
    (h2 : w.heap.lookup r = some o) :
    (ctxSetAttr w t var attr v).heap = setA w.heap r (setA o attr v) := by
  unfold ctxSetAttr
  rw [h1]
  show (match w.heap.lookup r with
    | none => w
    | some o => { w with heap := setA w.heap r (setA o attr v) }).heap
      = setA w.heap r (setA o attr v)
  rw [h2]

theorem ctxGetAttr_read (w : World) (t : Nat) (var attr : String) (r : Nat) (o : Obj)
    (h1 : (w.bindingsOf t).lookup var = some r)
    (h2 : w.heap.lookup r = some o) :
    ctxGetAttr w t var attr = o.lookup attr := by
  unfold ctxGetAttr
  rw [h1]
  show (w.heap.lookup r).bind _ = _
  rw [h2]
  rfl

theorem ctxGetAttr_congr (w w2 : World) (t t2 : Nat) (var attr : String)
    (hb : w2.bindingsOf t2 = w.bindingsOf t)
    (hh : ∀ r, ((w.bindingsOf t).lookup var) = some r → w2.heap.lookup r = w.heap.lookup r) :
    ctxGetAttr w2 t2 var attr = ctxGetAttr w t var attr := by
  unfold ctxGetAttr
  rw [hb]
  cases h : (w.bindingsOf t).lookup var with
  | none => rfl
  | some r =>
    show (w2.heap.lookup r).bind _ = (w.heap.lookup r).bind _
    rw [hh r h]

/-- C3: scope bindings are task-local. Two distinct tasks that each bound a
fresh scratch object into their own context (each holding its own scope)
read back exactly the marker they wrote; a freshly spawned task receives a
copy of the parent bindings; and mutations made through the scope of the
child are invisible to the parent. -/
theorem C3_task_isolation (w : World) (t1 t2 p c : Nat) (v1 v2 v : Val)
    (hw : WFW w) (h12 : t1 ≠ t2) (hpc : p ≠ c) :
    (ctxGetAttr (ctxSetAttr (ctxSetAttr (ctxUpdate (ctxUpdate w t1 "request") t2 "request")
        t1 "request" "marker" v1) t2 "request" "marker" v2) t1 "request" "marker" = some v1 ∧
     ctxGetAttr (ctxSetAttr (ctxSetAttr (ctxUpdate (ctxUpdate w t1 "request") t2 "request")
        t1 "request" "marker" v1) t2 "request" "marker" v2) t2 "request" "marker" = some v2) ∧
    (spawnTask w p c).bindingsOf c = w.bindingsOf p ∧
    (∀ attr, ctxGetAttr (ctxSetAttr (ctxUpdate (spawnTask w p c) c "request")
        c "request" "marker" v) p "request" attr = ctxGetAttr w p "request" attr) := by
  have h21 : t2 ≠ t1 := fun h => h12 h.symm
  refine ⟨?_, ?_, ?_⟩
  · set n := w.nextRef with hn
    set w1 := ctxUpdate w t1 "request" with hw1
    set w2 := ctxUpdate w1 t2 "request" with hw2
    have hb1 : (w2.bindingsOf t1).lookup "request" = some n := by
      rw [hw2, bindingsOf_ctxUpdate_ne _ _ _ _ h12, hw1, bindingsOf_ctxUpdate_self]
      exact lookup_setA_self _ _ _
    have hb2 : (w2.bindingsOf t2).lookup "request" = some (n + 1) := by
      rw [hw2, bindingsOf_ctxUpdate_self]
      exact lookup_setA_self _ _ _
    have hheap2 : w2.heap = setA (setA w.heap n []) (n + 1) [] := rfl
    have hnsucc : n ≠ n + 1 := Nat.ne_of_lt (Nat.lt_succ_self n)
    have hsuccn : n + 1 ≠ n := fun h => hnsucc h.symm
    have hh1 : w2.heap.lookup n = some [] := by
      rw [hheap2, lookup_setA_ne _ _ _ _ hnsucc]
      exact lookup_setA_self _ _ _
    set w3 := ctxSetAttr w2 t1 "request" "marker" v1 with hw3
    have hheap3 : w3.heap = setA w2.heap n [("marker", v1)] := by
      rw [hw3, heap_ctxSetAttr _ _ _ _ _ _ _ hb1 hh1]
      rfl
    have hb1w3 : (w3.bindingsOf t1).lookup "request" = some n := by
      rw [hw3, bindingsOf_ctxSetAttr]
      exact hb1
    have hb2w3 : (w3.bindingsOf t2).lookup "request" = some (n + 1) := by
      rw [hw3, bindingsOf_ctxSetAttr]
      exact hb2
    have hh2 : w3.heap.lookup (n + 1) = some [] := by
      rw [hheap3, lookup_setA_ne _ _ _ _ hsuccn, hheap2]
      exact lookup_setA_self _ _ _
    set w4 := ctxSetAttr w3 t2 "request" "marker" v2 with hw4
    have hheap4 : w4.heap = setA w3.heap (n + 1) [("marker", v2)] := by
      rw [hw4, heap_ctxSetAttr _ _ _ _ _ _ _ hb2w3 hh2]
      rfl
    have hb1w4 : (w4.bindingsOf t1).lookup "request" = some n := by
      rw [hw4, bindingsOf_ctxSetAttr]
      exact hb1w3
    have hb2w4 : (w4.bindingsOf t2).lookup "request" = some (n + 1) := by
      rw [hw4, bindingsOf_ctxSetAttr]
      exact hb2w3
    have hh1w4 : w4.heap.lookup n = some [("marker", v1)] := by
      rw [hheap4, lookup_setA_ne _ _ _ _ hnsucc, hheap3]
      exact lookup_setA_self _ _ _
    have hh2w4 : w4.heap.lookup (n + 1) = some [("marker", v2)] := by
      rw [hheap4]
      exact lookup_setA_self _ _ _
    constructor
    · rw [ctxGetAttr_read w4 t1 "request" "marker" n [("marker", v1)] hb1w4 hh1w4]
      simp [List.lookup_cons]
    · rw [ctxGetAttr_read w4 t2 "request" "marker" (n + 1) [("marker", v2)] hb2w4 hh2w4]
      simp [List.lookup_cons]
  · unfold spawnTask World.bindingsOf
    rw [lookup_setA_self]
    rfl
  · intro attr
    set n := w.nextRef with hn
    set s := spawnTask w p c with hs
    have hsheap : s.heap = w.heap := rfl
    have hsnext : s.nextRef = n := rfl
    have hsbp : s.bindingsOf p = w.bindingsOf p := by
      rw [hs]
      unfold spawnTask World.bindingsOf
      rw [lookup_setA_ne _ _ _ _ hpc]
    set u := ctxUpdate s c "request" with hu
    have hubp : u.bindingsOf p = w.bindingsOf p := by
      rw [hu, bindingsOf_ctxUpdate_ne _ _ _ _ hpc]
      exact hsbp
    have hubc : (u.bindingsOf c).lookup "request" = some n := by
      rw [hu, bindingsOf_ctxUpdate_self, hsnext]
      exact lookup_setA_self _ _ _
    have huheap : u.heap = setA w.heap n [] := by
      rw [hu]
      show setA s.heap s.nextRef [] = setA w.heap n []
      rw [hsheap, hsnext]
    have huhn : u.heap.lookup n = some [] := by
      rw [huheap]
      exact lookup_setA_self _ _ _
    set wfin := ctxSetAttr u c "request" "marker" v with hwfin
    have hfheap : wfin.heap = setA u.heap n [("marker", v)] := by
      rw [hwfin, heap_ctxSetAttr _ _ _ _ _ _ _ hubc huhn]
      rfl
    have hfbp : wfin.bindingsOf p = w.bindingsOf p := by
      rw [hwfin, bindingsOf_ctxSetAttr]
      exact hubp
    refine ctxGetAttr_congr w wfin p p "request" attr hfbp ?_
    intro r hr
    have hrlt : r < n := by
      have hb : ∃ b, w.tasks.lookup p = some b := by
        cases htp : w.tasks.lookup p with
        | none =>
          exfalso
          unfold World.bindingsOf at hr
          rw [htp] at hr
          simp [List.lookup_cons] at hr
        | some b => exact ⟨b, rfl⟩
      obtain ⟨b, htp⟩ := hb
      have hmemt : (p, b) ∈ w.tasks := lookup_mem htp
      have hbr : ("request", r) ∈ b := by
        apply lookup_mem
        unfold World.bindingsOf at hr
        rw [htp] at hr
        exact hr
      exact hw.2 (p, b) hmemt ("request", r) hbr
    have hrn : r ≠ n := Nat.ne_of_lt hrlt
    rw [hfheap, lookup_setA_ne _ _ _ _ hrn, huheap, lookup_setA_ne _ _ _ _ hrn]

/-- C3 witness: two concrete tasks in the empty world each read back their own
marker, and the parent of a fresh child is unaffected by the writes of the
child. -/
theorem C3_task_isolation_w :
    ctxGetAttr (ctxSetAttr (ctxSetAttr (ctxUpdate (ctxUpdate ⟨[], [], 0⟩ 1 "request") 2 "request")
        1 "request" "marker" (Val.nat 10)) 2 "request" "marker" (Val.nat 20)) 1 "request" "marker"
      = some (Val.nat 10) ∧
    ctxGetAttr (ctxSetAttr (ctxSetAttr (ctxUpdate (ctxUpdate ⟨[], [], 0⟩ 1 "request") 2 "request")
        1 "request" "marker" (Val.nat 10)) 2 "request" "marker" (Val.nat 20)) 2 "request" "marker"
      = some (Val.nat 20) := by
  have h := C3_task_isolation ⟨[], [], 0⟩ 1 2 1 2 (Val.nat 10) (Val.nat 20) (Val.nat 5)
    ⟨by intro q hq; simp at hq, by intro q hq; simp at hq⟩ (by decide) (by decide)
  exact h.1

end SpecJS

namespace SpecJS

mutual

theorem deepSer_records (reg : Registry) (buckets : List Entity) :
    ∀ (it : Item) (out : SerItem), deep_serialize reg buckets it = Except.ok out →
      ∀ r ∈ recordNodes out, ∃ e, e ∈ entityLeaves it ∧ e ∉ buckets ∧ r = e.serialize
  | Item.prim v, out, h => by
    simp only [deep_serialize] at h
    cases h
    intro r hr
    simp [recordNodes] at hr
  | Item.entity e, out, h => by
    simp only [deep_serialize] at h
    by_cases hreg : reg.registered.contains e.typeName = true
    · rw [if_pos hreg] at h
      by_cases hb : buckets.contains e = true
      · rw [if_pos hb] at h
        cases h
        intro r hr
        simp [recordNodes] at hr
      · rw [if_neg hb] at h
        cases h
        intro r hr
        simp only [recordNodes, List.mem_singleton] at hr
        refine ⟨e, by simp [entityLeaves], ?_, hr⟩
        intro hmem
        exact hb (List.elem_iff.mpr hmem)
    · rw [if_neg hreg] at h
      cases h
  | Item.list xs, out, h => by
    simp only [deep_serialize] at h
    cases hys : deepList reg buckets xs with
    | error msg => rw [hys] at h; cases h
    | ok ys =>
      rw [hys] at h
      cases h
      intro r hr
      rw [recordNodes] at hr
      obtain ⟨e, he, hb, hre⟩ := deepList_records reg buckets xs ys hys r hr
      exact ⟨e, by rw [entityLeaves]; exact he, hb, hre⟩
  | Item.dict kvs, out, h => by
    simp only [deep_serialize] at h
    cases hys : deepDict reg buckets kvs with
    | error msg => rw [hys] at h; cases h
    | ok ys =>
      rw [hys] at h
      cases h
      intro r hr
      rw [recordNodes] at hr
      obtain ⟨e, he, hb, hre⟩ := deepDict_records reg buckets kvs ys hys r hr
      exact ⟨e, by rw [entityLeaves]; exact he, hb, hre⟩

theorem deepList_records (reg : Registry) (buckets : List Entity) :
    ∀ (xs : List Item) (ys : List SerItem), deepList reg buckets xs = Except.ok ys →
      ∀ r ∈ recordNodesList ys, ∃ e, e ∈ entityLeavesList xs ∧ e ∉ buckets ∧ r = e.serialize
  | [], ys, h => by
    simp only [deepList] at h
    cases h
    intro r hr
    simp [recordNodesList] at hr
  | x :: xs, ys, h => by
    simp only [deepList] at h
    cases hy : deep_serialize reg buckets x with
    | error msg => rw [hy] at h; cases h
    | ok y =>
      rw [hy] at h
      cases hys2 : deepList reg buckets xs with
      | error msg =>
        rw [hys2] at h
        cases h
      | ok ys2 =>
        rw [hys2] at h
        cases h
        intro r hr
        rw [recordNodesList] at hr
        rcases List.mem_append.mp hr with hr1 | hr2
        · obtain ⟨e, he, hb, hre⟩ := deepSer_records reg buckets x y hy r hr1
          exact ⟨e, by rw [entityLeavesList]; exact List.mem_append.mpr (Or.inl he), hb, hre⟩
        · obtain ⟨e, he, hb, hre⟩ := deepList_records reg buckets xs ys2 hys2 r hr2
          exact ⟨e, by rw [entityLeavesList]; exact List.mem_append.mpr (Or.inr he), hb, hre⟩

theorem deepDict_records (reg : Registry) (buckets : List Entity) :
    ∀ (kvs : List (String × Item)) (ys : List (String × SerItem)),
      deepDict reg buckets kvs = Except.ok ys →
      ∀ r ∈ recordNodesDict ys, ∃ e, e ∈ entityLeavesDict kvs ∧ e ∉ buckets ∧ r = e.serialize
  | [], ys, h => by
    simp only [deepDict] at h
    cases h
    intro r hr
    simp [recordNodesDict] at hr
  | (k, x) :: kvs, ys, h => by
    simp only [deepDict] at h
    cases hy : deep_serialize reg buckets x with
    | error msg => rw [hy] at h; cases h
    | ok y =>
      rw [hy] at h
      cases hys2 : deepDict reg buckets kvs with
      | error msg =>
        rw [hys2] at h
        cases h
      | ok ys2 =>
        rw [hys2] at h
        cases h
        intro r hr
        rw [recordNodesDict] at hr
        rcases List.mem_append.mp hr with hr1 | hr2
        · obtain ⟨e, he, hb, hre⟩ := deepSer_records reg buckets x y hy r hr1
          exact ⟨e, by rw [entityLeavesDict]; exact List.mem_append.mpr (Or.inl he), hb, hre⟩
        · obtain ⟨e, he, hb, hre⟩ := deepDict_records reg buckets kvs ys2 hys2 r hr2
          exact ⟨e, by rw [entityLeavesDict]; exact List.mem_append.mpr (Or.inr he), hb, hre⟩

end

end SpecJS

namespace SpecJS

/-- C8: when serializing a direct action result, an entity belonging to the
buckets is rendered as the forward-reference marker carrying its type name
and id, and consequently every full nested payload in a successful
serialization comes from an entity outside the buckets. -/
theorem C8_forward_reference (reg : Registry) (buckets : List Entity) (e : Entity)
    (it : Item) (out : SerItem)
    (hreg : reg.registered.contains e.typeName = true)
    (hmem : e ∈ buckets)
    (hout : deep_serialize reg buckets it = Except.ok out) :
    deep_serialize reg buckets (Item.entity e) = Except.ok (SerItem.ref e.typeName e.id) ∧
    ∀ r ∈ recordNodes out, ∃ x, x ∈ entityLeaves it ∧ x ∉ buckets ∧ r = x.serialize := by
  refine ⟨?_, deepSer_records reg buckets it out hout⟩
  simp only [deep_serialize]
  rw [if_pos hreg, if_pos (List.elem_iff.mpr hmem)]

/-- C8 witness: a bucket member serializes to its reference marker. -/
theorem C8_forward_reference_w :
    deep_serialize exReg [exFileA] (Item.entity exFileA)
      = Except.ok (SerItem.ref exFileA.typeName exFileA.id) :=
  (C8_forward_reference exReg [exFileA] exFileA (Item.list [Item.entity exFileA])
    (SerItem.list [SerItem.ref "File" 1]) (by decide) (by decide) rfl).1

end SpecJS
